import Mathlib

/-!
Verification of the provider bridge of trust-cli
(src/packages/core/src/providers/ollama.ts and ollama-model-configs.ts).

The TypeScript source is shallowly embedded below.  JavaScript strings are
modelled as lists of characters (`Str`), so the line-splitting and buffer
arithmetic of the stream decoder are plain list operations.  Platform
primitives that the source calls but does not define (the `fetch` HTTP
client, `JSON.parse`, the byte-to-text decoder) are modelled as parameters:
an HTTP interaction is a value describing its outcome, and the JSON parser
used by the stream decoder is an arbitrary function `Str → Option Json`.
Everything the source itself computes (role conversion, message translation,
retry loop, stream decode loop, capability lookup) is translated directly.
-/

namespace TrustCli

/-! ## JavaScript string model -/

/-- A JavaScript string, modelled as its list of characters. -/
abbrev Str := List Char

/-- Whitespace characters recognised by JavaScript `String.prototype.trim`
(the members relevant to this code base: space, tab, newline, carriage
return, vertical tab, form feed). -/
def isJsWhitespace (c : Char) : Bool :=
  c = ' ' || c = '\t' || c = '\n' || c = '\r' || c = '\x0b' || c = '\x0c'

/-- `line.trim()` is falsy exactly when every character is whitespace. -/
def isBlank (l : Str) : Bool :=
  l.all isJsWhitespace

/-- JavaScript `buffer.split('\n')`: the list of newline-separated segments.
Splitting the empty string yields `[""]`, and a trailing newline yields a
trailing empty segment, as in JavaScript. -/
def splitNl : Str → List Str
  | [] => [[]]
  | c :: cs =>
    if c = '\n' then [] :: splitNl cs
    else
      match splitNl cs with
      | [] => [[c]]
      | l :: ls => (c :: l) :: ls

/-- Boolean prefix test on character lists. -/
def isPrefixOfB : Str → Str → Bool
  | [], _ => true
  | _ :: _, [] => false
  | a :: as, b :: bs => a = b && isPrefixOfB as bs

/-- JavaScript `hay.includes(needle)`: substring containment
(every string includes the empty string). -/
def strContains (hay needle : Str) : Bool :=
  isPrefixOfB needle hay ||
    match hay with
    | [] => false
    | _ :: t => strContains t needle

/-- JavaScript `s.toLowerCase()` on a character list. -/
def toLowerL (s : Str) : Str :=
  s.map Char.toLower

/-! ## JSON values

`JSON.stringify` as used by the message translator: compact output, object
keys in insertion order.  Numbers are restricted to integers, which covers
every value the source serialises in the claims under study. -/

inductive Json where
  | null : Json
  | bool (b : Bool) : Json
  | num (n : Int) : Json
  | str (s : String) : Json
  | arr (xs : List Json) : Json
  | obj (fields : List (String × Json)) : Json

/-- Escape one character as `JSON.stringify` does for string contents. -/
def escapeChar (c : Char) : String :=
  if c = '"' then "\\\""
  else if c = '\\' then "\\\\"
  else if c = '\n' then "\\n"
  else if c = '\t' then "\\t"
  else if c = '\r' then "\\r"
  else String.singleton c

/-- Escape a whole string for inclusion in JSON output. -/
def escapeString (s : String) : String :=
  String.join (s.data.map escapeChar)

mutual

/-- Compact JSON serialisation, as `JSON.stringify` produces with no
spacing argument. -/
def Json.stringify : Json → String
  | .null => "null"
  | .bool b => cond b "true" "false"
  | .num n => toString n
  | .str s => "\"" ++ escapeString s ++ "\""
  | .arr xs => "[" ++ String.intercalate "," (stringifyArr xs) ++ "]"
  | .obj kvs => "\x7b" ++ String.intercalate "," (stringifyObj kvs) ++ "\x7d"

/-- Serialise the elements of a JSON array. -/
def stringifyArr : List Json → List String
  | [] => []
  | j :: js => Json.stringify j :: stringifyArr js

/-- Serialise the fields of a JSON object, keys in insertion order. -/
def stringifyObj : List (String × Json) → List String
  | [] => []
  | (k, v) :: kvs => ("\"" ++ escapeString k ++ "\":" ++ Json.stringify v) :: stringifyObj kvs

end

/-- Field lookup on a JSON value: `data.field` is defined when the value is
an object carrying the key, mirroring JavaScript property access. -/
def Json.getField (j : Json) (key : String) : Option Json :=
  match j with
  | .obj fields =>
    match fields.find? (fun kv => kv.1 == key) with
    | some kv => some kv.2
    | none => none
  | _ => none

/-! ## Stream decoder

Embedding of the decode loop inside `callOllamaAPIStream`
(ollama.ts lines 330-369).  The reader's successive `read()` results are the
list of chunks; `JSON.parse` is the parameter `parse`.  The result is the
list of records yielded before the loop ended together with how it ended. -/

/-- `MAX_BUFFER_SIZE` from the source: 1 MiB. -/
def MAX_BUFFER_SIZE : Nat := 1024 * 1024

/-- How the decode loop ends: clean end of stream, the buffer-size guard
(`Response buffer exceeded 1MB`), or the consecutive-parse-error guard
(`Too many consecutive JSON parse errors in stream`). -/
inductive StreamOutcome where
  | terminated : StreamOutcome
  | bufferExceeded : StreamOutcome
  | tooManyParseErrors : StreamOutcome
deriving DecidableEq

/-- The inner `for (const line of lines)` loop: skip blank lines, parse the
rest, yield parsed records, reset the error counter on success, increment it
on failure and abort once it exceeds `maxErrs`.  Returns the records yielded
by this batch, the counter afterwards, and a failure if one was thrown. -/
def processLines (parse : Str → Option Json) (maxErrs : Nat) :
    List Str → Nat → List Json × Nat × Option StreamOutcome
  | [], errs => ([], errs, none)
  | line :: rest, errs =>
    if isBlank line then processLines parse maxErrs rest errs
    else
      match parse line with
      | some r =>
        let plr := processLines parse maxErrs rest 0
        (r :: plr.1, plr.2)
      | none =>
        let errs' := errs + 1
        if errs' > maxErrs then ([], errs', some .tooManyParseErrors)
        else processLines parse maxErrs rest errs'

/-- The outer `while (true)` read loop.  Each chunk is appended to the
buffer; the buffer-size guard fires before any splitting; the buffer is then
split on newlines, the trailing fragment retained, and the complete lines
handed to `processLines`.  End of input discards the dangling fragment. -/
def decodeChunksAux (parse : Str → Option Json) (maxBuf maxErrs : Nat) :
    List Str → Str → Nat → List Json × StreamOutcome
  | [], _, _ => ([], .terminated)
  | chunk :: rest, buffer, errs =>
    let buf := buffer ++ chunk
    if buf.length > maxBuf then ([], .bufferExceeded)
    else
      let ls := splitNl buf
      let newBuffer := ls.getLastD []
      let complete := ls.dropLast
      let pl := processLines parse maxErrs complete errs
      match pl.2.2 with
      | none =>
        let rec2 := decodeChunksAux parse maxBuf maxErrs rest newBuffer pl.2.1
        (pl.1 ++ rec2.1, rec2.2)
      | some o => (pl.1, o)

/-- The stream decoder on a whole chunk sequence, starting from an empty
buffer and a zero error counter.  The source fixes `maxBuf` to
`MAX_BUFFER_SIZE` and `maxErrs` to `5`; they are parameters here because the
specification treats both as configured values. -/
def decodeStream (parse : Str → Option Json) (maxBuf maxErrs : Nat)
    (chunks : List Str) : List Json × StreamOutcome :=
  decodeChunksAux parse maxBuf maxErrs chunks [] 0

/-- Total length of a chunk sequence. -/
def totalLen (chunks : List Str) : Nat :=
  (chunks.map List.length).sum

/-- Length of the longest newline-separated segment of a string. -/
def maxLineLen (s : Str) : Nat :=
  ((splitNl s).map List.length).foldr max 0

/-- Feed each line to the decoder as one newline-terminated chunk. -/
def encodeLines (lines : List Str) : List Str :=
  lines.map (fun l => l ++ ['\n'])

/-- Length of the leading run of non-blank unparseable lines (blank lines
neither extend nor interrupt a run, as the decoder skips them without
touching its error counter). -/
def leadBad (parse : Str → Option Json) : List Str → Nat
  | [] => 0
  | l :: ls =>
    if isBlank l then leadBad parse ls
    else
      match parse l with
      | some _ => 0
      | none => 1 + leadBad parse ls

/-! ## Errors and the retry executor

Embedding of `callOllamaAPIWithRetry` (ollama.ts lines 225-253).  An
operation is a map from the attempt index to that attempt's outcome.  The
source classifies a failure by testing the whole error message against the
unanchored regular expression `/HTTP 4\d\d:/`.  For the errors this code
throws on a non-ok response the message is `HTTP ${status}: ${errorText}`,
where `errorText` is the backend-controlled response body — so the test is
modelled over the full concatenated message, not as a status-range check:
a non-4xx failure whose body text happens to contain the pattern is also
classified as a client error by the code. -/

/-- Failures an attempt can produce: an `HTTP ${status}: ${text}` error
thrown on a non-ok response, a transport-level failure from `fetch`, or any
other thrown error (reader missing, decoder guards). -/
inductive OllamaError where
  | http (status : Nat) (bodyText : String) : OllamaError
  | network (msg : String) : OllamaError
  | other (msg : String) : OllamaError
deriving DecidableEq

/-- The `.message` of a thrown error: non-ok responses throw
`HTTP ${status}: ${errorText}` (ollama.ts line 294); other failures carry
their own message text. -/
def OllamaError.message : OllamaError → Str
  | .http status bodyText =>
    "HTTP ".data ++ (toString status).data ++ ": ".data ++ bodyText.data
  | .network msg => msg.data
  | .other msg => msg.data

/-- Does the regular expression `/HTTP 4\d\d:/` match at the start of this
string: literal `HTTP 4`, two decimal digits, then a colon. -/
def matches4xxAt : Str → Bool
  | 'H' :: 'T' :: 'T' :: 'P' :: ' ' :: '4' :: d1 :: d2 :: ':' :: _ =>
    d1.isDigit && d2.isDigit
  | _ => false

/-- Does `/HTTP 4\d\d:/` match anywhere in the string (the regex is
unanchored, as in the source). -/
def contains4xxPattern : Str → Bool
  | [] => false
  | c :: t => matches4xxAt (c :: t) || contains4xxPattern t

/-- The client-error test `lastError.message.match(/HTTP 4\d\d:/)`: the
unanchored pattern applied to the whole message. -/
def is4xx (e : OllamaError) : Bool :=
  contains4xxPattern e.message

/-- How the retry loop returns: the operation's value, a client error
rethrown unchanged, or the wrapping `Ollama API failed after N attempts`
error carrying the last underlying failure. -/
inductive RetryOutcome (A : Type) where
  | success (a : A) : RetryOutcome A
  | clientError (e : OllamaError) : RetryOutcome A
  | exhausted (attempts : Nat) (last : Option OllamaError) : RetryOutcome A
deriving DecidableEq

/-- One pass over the remaining iterations of the `for` loop.  `remaining`
is the fuel `maxRetries - attempt`; the returned naturals are the number of
invocations of the operation and the list of backoff delays slept, in
order.  A delay of `backoffMs * 2 ^ attempt` is slept only when another
attempt follows (`attempt < maxRetries - 1`). -/
def retryAux {A : Type} (op : Nat → Except OllamaError A) (maxRetries backoffMs : Nat) :
    Nat → Nat → Option OllamaError → RetryOutcome A × Nat × List Nat
  | 0, _, last => (.exhausted maxRetries last, 0, [])
  | remaining + 1, attempt, _ =>
    match op attempt with
    | .ok a => (.success a, 1, [])
    | .error e =>
      if is4xx e then (.clientError e, 1, [])
      else if attempt < maxRetries - 1 then
        let (out, n, ds) := retryAux op maxRetries backoffMs remaining (attempt + 1) (some e)
        (out, n + 1, backoffMs * 2 ^ attempt :: ds)
      else
        let (out, n, ds) := retryAux op maxRetries backoffMs remaining (attempt + 1) (some e)
        (out, n + 1, ds)

/-- `callOllamaAPIWithRetry(operation, maxRetries, backoffMs)`.  The source
defaults are `maxRetries = 3` and `backoffMs = 1000`; call sites below pass
them explicitly. -/
def callOllamaAPIWithRetry {A : Type} (op : Nat → Except OllamaError A)
    (maxRetries backoffMs : Nat) : RetryOutcome A × Nat × List Nat :=
  retryAux op maxRetries backoffMs maxRetries 0 none

/-! ## Capability registry

Embedding of ollama-model-configs.ts.  `Object.entries` iterates string
keys in insertion order, so the registry is an ordered association list. -/

/-- One capability entry.  The source stores `minSizeForTools` as a decimal
number of billions of parameters; rationals represent the values 1.5, 12
and 3.8 exactly. -/
structure ModelConfig where
  supportsToolCalling : Bool
  minSizeForTools : Option ℚ := none
  toolPromptTemplate : Option String := none
  supportsStreamingTools : Bool
  notes : Option String := none
deriving DecidableEq

/-- The `qwen3` entry. -/
def qwen3Config : ModelConfig :=
  { supportsToolCalling := true
    supportsStreamingTools := true
    notes := some "Excellent tool calling with built-in thinking capabilities" }

/-- The `qwen2.5` entry. -/
def qwen25Config : ModelConfig :=
  { supportsToolCalling := true
    supportsStreamingTools := true
    minSizeForTools := some (3 / 2)
    notes := some "Good tool calling support, prefer 1.5b or larger" }

/-- The `gemma3` entry, including its custom prompt template. -/
def gemma3Config : ModelConfig :=
  { supportsToolCalling := false
    supportsStreamingTools := false
    minSizeForTools := some 12
    notes := some "No native tool support; requires custom Modelfile modifications"
    toolPromptTemplate := some "You are a helpful assistant. When you need to use a tool, respond with:\nTOOL_CALL: \x7b\n  \"name\": \"function_name\",\n  \"arguments\": \x7b \"param\": \"value\" \x7d\n\x7d\n\nAvailable tools:\n\x7b\x7btools\x7d\x7d\n\nUser: \x7b\x7bprompt\x7d\x7d" }

/-- The `gemma2` entry. -/
def gemma2Config : ModelConfig :=
  { supportsToolCalling := false
    supportsStreamingTools := false
    notes := some "No native tool support" }

/-- The `llama3.1` entry. -/
def llama31Config : ModelConfig :=
  { supportsToolCalling := true
    supportsStreamingTools := true
    notes := some "Good tool calling support" }

/-- The `llama3` entry. -/
def llama3Config : ModelConfig :=
  { supportsToolCalling := true
    supportsStreamingTools := true
    notes := some "Basic tool calling support" }

/-- The `phi3` entry. -/
def phi3Config : ModelConfig :=
  { supportsToolCalling := true
    supportsStreamingTools := true
    minSizeForTools := some (19 / 5)
    notes := some "Adequate tool calling for simple functions" }

/-- The `default` entry for unknown models. -/
def defaultConfig : ModelConfig :=
  { supportsToolCalling := false
    supportsStreamingTools := false
    notes := some "Unknown model - tool calling may not work" }

/-- `MODEL_CONFIGS`, in source insertion order. -/
def MODEL_CONFIGS : List (String × ModelConfig) :=
  [("qwen3", qwen3Config),
   ("qwen2.5", qwen25Config),
   ("gemma3", gemma3Config),
   ("gemma2", gemma2Config),
   ("llama3.1", llama31Config),
   ("llama3", llama3Config),
   ("phi3", phi3Config),
   ("default", defaultConfig)]

/-- `modelName.split(':')[0].toLowerCase()`: the base model name. -/
def baseModelOf (modelName : String) : Str :=
  toLowerL (modelName.data.takeWhile (fun c => c ≠ ':'))

/-- The loop body's test: bidirectional substring containment between the
base model name and a registry key. -/
def matchesBase (modelName : String) (kv : String × ModelConfig) : Bool :=
  strContains (baseModelOf modelName) kv.1.data ||
    strContains kv.1.data (baseModelOf modelName)

/-- Property names every plain object literal inherits from
`Object.prototype`.  The index read `MODEL_CONFIGS[name]` for these names
returns the inherited member — a function, or `Object.prototype` itself for
`__proto__` — all of which are truthy, so the source's
`if (MODEL_CONFIGS[modelName])` takes the exact-match branch and returns
that non-config value. -/
def objectPrototypeProps : List String :=
  ["constructor", "hasOwnProperty", "isPrototypeOf", "propertyIsEnumerable",
   "toLocaleString", "toString", "valueOf", "__proto__",
   "__defineGetter__", "__defineSetter__", "__lookupGetter__",
   "__lookupSetter__"]

/-- What `getModelConfig` can return: a registry entry (an actual
`ModelConfig` object), or the truthy member inherited from
`Object.prototype` that the index read produced for a prototype property
name. -/
inductive ConfigLookup where
  | config (c : ModelConfig) : ConfigLookup
  | inherited (name : String) : ConfigLookup
deriving DecidableEq

/-- Reading `.supportsToolCalling` off the lookup result: on an inherited
function or prototype object the property is absent, so JavaScript yields
`undefined`, which every use site treats as falsy. -/
def ConfigLookup.supportsToolCalling : ConfigLookup → Bool
  | .config c => c.supportsToolCalling
  | .inherited _ => false

/-- Reading `.notes` off the lookup result: absent (`undefined`) on an
inherited member. -/
def ConfigLookup.notes : ConfigLookup → Option String
  | .config c => c.notes
  | .inherited _ => none

/-- `getModelConfig(modelName)`: the index read `MODEL_CONFIGS[modelName]`
first — an own key if one matches exactly, otherwise an inherited truthy
`Object.prototype` member if the name is one of those; only when the read
is falsy (the name is neither) does the substring loop run, in insertion
order, with the default entry as the final fallback. -/
def getModelConfig (modelName : String) : ConfigLookup :=
  match MODEL_CONFIGS.find? (fun kv => kv.1 == modelName) with
  | some kv => .config kv.2
  | none =>
    if objectPrototypeProps.contains modelName then .inherited modelName
    else
      match MODEL_CONFIGS.find? (matchesBase modelName) with
      | some kv => .config kv.2
      | none => .config defaultConfig

/-- Keep the candidate whose key is strictly longer, first match winning
ties: the fold realising a longest-match lookup. -/
def pickLongest (entries : List (String × ModelConfig)) :
    Option (String × ModelConfig) :=
  entries.foldl
    (fun best kv =>
      match best with
      | none => some kv
      | some b => if kv.1.length > b.1.length then some kv else some b)
    none

/-- The specification's wording of the lookup, for comparison with
`getModelConfig`: exact match first, then the longest-matching entry under
bidirectional substring containment, then the default entry. -/
def specLongestMatchLookup (modelName : String) : ModelConfig :=
  match MODEL_CONFIGS.find? (fun kv => kv.1 == modelName) with
  | some kv => kv.2
  | none =>
    match pickLongest (MODEL_CONFIGS.filter (matchesBase modelName)) with
    | some kv => kv.2
    | none => defaultConfig

/-- `modelSupportsTools(modelName)`. -/
def modelSupportsTools (modelName : String) : Bool :=
  (getModelConfig modelName).supportsToolCalling

/-! ## Message translator

Embedding of `convertRole`, `extractTextFromParts`, `convertToOllamaMessages`
and `convertToGeminiResponse` (ollama.ts lines 152-220 and 375-411). -/

/-- Canonical conversation roles.  The specification calls the fourth role
`tool-result`; in the Gemini wire format the source consumes it arrives as
the role string `"function"` carried by Turns holding a `functionResponse`
Part (see the function-response test in the repository's test suite). -/
inductive Role where
  | system : Role
  | user : Role
  | model : Role
  | toolResult : Role
deriving DecidableEq

/-- The role string a canonical role is carried as in the incoming
(Gemini-format) request. -/
def Role.toGemini : Role → String
  | .system => "system"
  | .user => "user"
  | .model => "model"
  | .toolResult => "function"

/-- Wire-side roles of `OllamaMessage`. -/
inductive WireRole where
  | system : WireRole
  | user : WireRole
  | assistant : WireRole
  | tool : WireRole
deriving DecidableEq

/-- `convertRole(role)`: the source `switch` maps `'model'` to
`'assistant'`, `'function'` to `'tool'`, `'system'` to `'system'`, and both
the explicit `'user'` case and the `default` case to `'user'`. -/
def convertRole (role : String) : WireRole :=
  if role = "model" then .assistant
  else if role = "function" then .tool
  else if role = "system" then .system
  else .user

/-- A Part of a Turn: text, a function call (`tool-call`), or a function
response (`tool-result`), the closed union the source consumes. -/
inductive GPart where
  | text (s : String) : GPart
  | functionCall (id : Option String) (name : String) (args : Option Json) : GPart
  | functionResponse (name : String) (response : Json) : GPart

/-- `part.text` when truthy: text Parts with non-empty content (the source
filters on the truthiness of `part.text`, so empty strings are dropped). -/
def partText : GPart → Option String
  | .text s => if s = "" then none else some s
  | _ => none

/-- `part.functionCall` truthiness test. -/
def isFunctionCallB : GPart → Bool
  | .functionCall _ _ _ => true
  | _ => false

/-- `part.functionResponse` truthiness test. -/
def isFunctionResponseB : GPart → Bool
  | .functionResponse _ _ => true
  | _ => false

/-- `extractTextFromParts(parts)`: keep truthy text, join with newlines. -/
def extractTextFromParts (parts : List GPart) : String :=
  String.intercalate "\n" (parts.filterMap partText)

/-- One Turn of the incoming conversation. -/
structure Turn where
  role : Role
  parts : List GPart

/-- A wire tool call: `type` is fixed to `'function'` in the source and
omitted here. -/
structure OllamaToolCall where
  id : String
  name : String
  arguments : String
deriving DecidableEq

/-- A wire message.  Absent optional fields are `none`. -/
structure OllamaMessage where
  role : WireRole
  content : String
  tool_calls : Option (List OllamaToolCall) := none
  tool_call_id : Option String := none
deriving DecidableEq

/-- Build one wire tool call from a `functionCall` Part.  `gen` supplies the
generated identifier used when the Part carries none; it abstracts
`generateId()`, whose output mixes a timestamp and random bits. -/
def mkToolCallOf (gen : String) : GPart → Option OllamaToolCall
  | .functionCall id name args =>
    some { id := id.getD gen
           name := name
           arguments := Json.stringify (args.getD (Json.obj [])) }
  | _ => none

/-- Translation of one Turn to one wire message (the body of the `map` in
`convertToOllamaMessages`): role conversion and text extraction, then
`tool_calls` when the Turn has `functionCall` Parts, then the
`functionResponse` override of role, `tool_call_id` and content. -/
def convertTurn (gen : String) (t : Turn) : OllamaMessage :=
  let base : OllamaMessage :=
    { role := convertRole t.role.toGemini
      content := extractTextFromParts t.parts }
  let functionCalls := t.parts.filter isFunctionCallB
  let withCalls :=
    if functionCalls.length > 0 then
      { base with tool_calls := some (functionCalls.filterMap (mkToolCallOf gen)) }
    else base
  match t.parts.find? isFunctionResponseB with
  | some (.functionResponse name response) =>
    { withCalls with
        role := .tool
        tool_call_id := some name
        content := Json.stringify response }
  | _ => withCalls

/-- `convertToOllamaMessages(contents)`. -/
def convertToOllamaMessages (gen : String) (contents : List Turn) : List OllamaMessage :=
  contents.map (convertTurn gen)

/-- The `message` object of an Ollama response; its role is fixed to
`assistant` by the wire format and omitted. -/
structure OllamaRespMessage where
  content : String
  tool_calls : Option (List OllamaToolCall) := none
deriving DecidableEq

/-- An Ollama chat response (one body, or one streamed record). -/
structure OllamaResponse where
  model : String := ""
  created_at : String := ""
  message : OllamaRespMessage
  done : Bool
deriving DecidableEq

/-- `FinishReason` values the conversion produces. -/
inductive FinishReason where
  | STOP : FinishReason
  | OTHER : FinishReason
deriving DecidableEq

/-- One candidate of the converted response. -/
structure GenCandidate where
  parts : List GPart
  role : String
  finishReason : FinishReason

/-- The converted response: one candidate; the usage metadata the source
attaches is the constant all-zero record and is omitted. -/
structure GenResponse where
  candidates : List GenCandidate

/-- `convertToGeminiResponse(ollamaResponse)`.  Parsing a tool call's
`arguments` uses `JSON.parse`, modelled by `parse`; a parse failure there
throws in the source, modelled as `none`. -/
def convertToGeminiResponse (parse : Str → Option Json) (r : OllamaResponse) :
    Option GenResponse :=
  let textParts : List GPart :=
    if r.message.content = "" then [] else [.text r.message.content]
  let argsOf : OllamaToolCall → Option GPart := fun tc =>
    match parse tc.arguments.data with
    | some j => some (.functionCall none tc.name (some j))
    | none => none
  let callParts : Option (List GPart) :=
    match r.message.tool_calls with
    | none => some []
    | some tcs => tcs.mapM argsOf
  match callParts with
  | none => none
  | some cps =>
    some { candidates :=
      [{ parts := textParts ++ cps
         role := "model"
         finishReason := if r.done then .STOP else .OTHER }] }

/-! ## Provider bridge: unary path

Embedding of `generateContent`, `extractModelName`, `checkForToolCalls` and
`validateModelToolSupport` (ollama.ts lines 77-103, 142-147, 452-477).
`console.warn` output is collected as a list of advisory strings; the HTTP
interaction is the trace `api`, giving each attempt's outcome for the
request determined by the model and messages. -/

/-- `extractModelName(modelWithPrefix)`.  `startsWith` and the 7-character
`substring` are expressed on the character list. -/
def extractModelName (modelWithPrefix : String) : String :=
  if isPrefixOfB "ollama:".data modelWithPrefix.data then
    String.mk (modelWithPrefix.data.drop 7)
  else modelWithPrefix

/-- `checkForToolCalls(contents)`. -/
def checkForToolCalls (contents : List Turn) : Bool :=
  contents.any (fun c => c.parts.any (fun p => isFunctionCallB p || isFunctionResponseB p))

/-- `validateModelToolSupport(model)`: a list of advisory warnings, empty
when the model's capability entry supports tool calling.  The source only
calls `console.warn` here and never throws. -/
def validateModelToolSupport (model : String) : List String :=
  let modelConfig := getModelConfig model
  if modelConfig.supportsToolCalling then []
  else
    ["Model " ++ model ++ " does not natively support tool calling"] ++
      (match modelConfig.notes with
       | some n => ["Note: " ++ n]
       | none => [])

/-- `generateContent(request)`: advisory warnings paired with the outcome.
`api model messages attempt` is the result of the attempt-th HTTP POST for
that model and message list; failures of the retry pipeline and of the
response conversion are wrapped by the surrounding `catch` into an
`Ollama API error for model ...` error, modelled by `.error`. -/
def generateContent (parse : Str → Option Json) (gen : String)
    (requestModel : String) (contents : List Turn)
    (api : String → List OllamaMessage → Nat → Except OllamaError OllamaResponse) :
    List String × Except OllamaError GenResponse :=
  let model := extractModelName requestModel
  let advisories :=
    if checkForToolCalls contents then validateModelToolSupport model else []
  let messages := convertToOllamaMessages gen contents
  let result :=
    match callOllamaAPIWithRetry (api model messages) 3 1000 with
    | (.success r, _, _) =>
      match convertToGeminiResponse parse r with
      | some resp => Except.ok resp
      | none => Except.error (.other "JSON.parse failed on tool call arguments")
    | (.clientError e, _, _) => Except.error e
    | (.exhausted n _, _, _) =>
      Except.error (.other ("Ollama API failed after " ++ toString n ++ " attempts"))
  (advisories, result)

/-! ## Provider bridge: availability probe and model listing

Embedding of `isAvailable` and `listModels` (ollama.ts lines 416-447). -/

/-- Outcome of a `fetch`: a response with its `ok` flag, status and body, or
a transport failure that makes `fetch` reject. -/
inductive FetchOutcome (B : Type) where
  | response (ok : Bool) (status : Nat) (body : B) : FetchOutcome B
  | networkError (msg : String) : FetchOutcome B
deriving DecidableEq

/-- `isAvailable()`: `response.ok` of `GET /api/version`, `false` when the
fetch rejects.  The body is never read. -/
def isAvailable (f : FetchOutcome Unit) : Bool :=
  match f with
  | .response ok _ _ => ok
  | .networkError _ => false

/-- `listModels()`: `GET /api/tags`.  The body is the parsed JSON, `none`
when `response.json()` rejects (which the surrounding `try` absorbs).
Elements of `models` contribute their `name` field; a `name` that is absent
or not a string is JavaScript `undefined`, modelled as `none`.  A `models`
value that is not an array makes `.map` throw, which the `try` also absorbs
into an empty list. -/
def listModels (f : FetchOutcome (Option Json)) : List (Option String) :=
  match f with
  | .networkError _ => []
  | .response ok _ body =>
    if !ok then []
    else
      match body with
      | none => []
      | some data =>
        match data.getField "models" with
        | some (.arr xs) =>
          xs.map (fun el =>
            match el.getField "name" with
            | some (.str s) => some s
            | _ => none)
        | some _ => []
        | none => []

/-! ## Provider bridge: streaming path

Embedding of `callOllamaAPIStream`, `callOllamaAPIStreamWithRetry` and the
consumption loop of `generateContentStream` (ollama.ts lines 108-137 and
258-370).

`callOllamaAPIStream` is an async generator function.  In JavaScript,
invoking an async generator function executes none of its body: it returns
the generator object at once, and the body — the `fetch`, the status check,
the reader acquisition and the decode loop — only runs when the consumer
first awaits `next()`.  Awaiting a non-thenable value (a generator is not a
thenable) yields the value unchanged.  The embedding reflects both facts:
invoking the stream call produces the deferred `StreamFetch` description
and cannot fail, and `runOllamaStream` is what consuming the generator
executes. -/

/-- The deferred HTTP interaction of one streaming establishment: the
response (`ok` flag, status, `errorText` for the failure message, body
chunks when a readable body is present) or a transport failure. -/
inductive StreamFetch where
  | response (ok : Bool) (status : Nat) (errorText : String)
      (body : Option (List Str)) : StreamFetch
  | networkError (msg : String) : StreamFetch
deriving DecidableEq

/-- How consuming the stream ends for the consumer: clean completion, or a
failure surfaced mid-consumption. -/
inductive StreamEnd where
  | done : StreamEnd
  | failed (e : OllamaError) : StreamEnd
deriving DecidableEq

/-- Consuming the generator returned by `callOllamaAPIStream`: establishes
the connection (status check, reader acquisition), then runs the decode
loop; the records yielded before the end are paired with how it ended. -/
def runOllamaStream (parse : Str → Option Json) (f : StreamFetch) :
    List Json × StreamEnd :=
  match f with
  | .networkError m => ([], .failed (.network m))
  | .response ok status errorText body =>
    if !ok then ([], .failed (.http status errorText))
    else
      match body with
      | none => ([], .failed (.other "Failed to get response reader"))
      | some chunks =>
        match decodeStream parse MAX_BUFFER_SIZE 5 chunks with
        | (rs, .terminated) => (rs, .done)
        | (rs, .bufferExceeded) =>
          (rs, .failed (.other "Response buffer exceeded 1MB - possible malformed response"))
        | (rs, .tooManyParseErrors) =>
          (rs, .failed (.other "Too many consecutive JSON parse errors in stream"))

/-- `callOllamaAPIStreamWithRetry(model, messages)`: the retry wrapper with
`maxRetries = 2` applied to `() => this.callOllamaAPIStream(model,
messages)`.  Because invoking the async generator function returns the
generator immediately and throws nothing, the wrapped operation is
`Except.ok` of the deferred fetch for every attempt; `fetches k` is the
HTTP interaction the attempt-k generator would perform when consumed. -/
def callOllamaAPIStreamWithRetry (fetches : Nat → StreamFetch) :
    RetryOutcome StreamFetch × Nat × List Nat :=
  callOllamaAPIWithRetry (fun k => Except.ok (fetches k)) 2 1000

/-! ## Shared concrete instances for witnesses -/

/-- A degenerate JSON parser that accepts nothing; usable wherever a claim
does not depend on which lines parse. -/
def pZero : Str → Option Json := fun _ => none

/-! ## Theorems -/

/-- The failing attempt for the C2 counterexample: a 503 whose
backend-controlled body text happens to contain the pattern
`HTTP 404: ...`. -/
def c2BadBody : OllamaError := .http 503 "HTTP 404: page not found"

/-- Operation trace for the C2 counterexample: one 503 failure with a
pattern-bearing body, then success. -/
def c2opBad : Nat → Except OllamaError Nat := fun k =>
  if k = 0 then .error c2BadBody else .ok 42

/-- C2 counterexample: a failure that is not an HTTP client error by status
(503, not 400-499) is nevertheless never retried, because the code tests
the unanchored `/HTTP 4\d\d:/` against the whole message
`HTTP 503: HTTP 404: page not found` and the backend-controlled body text
matches.  The operation would succeed on a second attempt, yet it is
invoked exactly once and the error propagates — refuting the claim's
"every other failure is retried up to 3 attempts total". -/
theorem c2_counterexample :
    (503 ≤ 499) = False ∧
    is4xx c2BadBody = true ∧
    callOllamaAPIWithRetry c2opBad 3 1000 = (.clientError c2BadBody, 1, []) := by
  refine ⟨by decide, rfl, rfl⟩

/-- C2 (amended): the retry executor classifies a failure by testing its
message against the unanchored pattern `HTTP 4\d\d:`.  Every failure with
an HTTP status 400-499 carries the pattern in its `HTTP status: body`
message and is never retried — the operation stops at that invocation and
the error propagates; every failure whose message does not contain the
pattern is retried with delay `backoffMs * 2 ^ k` after the k-th failed
attempt up to 3 attempts total; and an operation failing twice with
pattern-free errors then succeeding returns the success after exactly three
invocations.  (A non-4xx failure whose body text contains the pattern is
also treated as terminal, which is what the counterexample shows against
the original claim.) -/
theorem c2_retry_policy (A : Type) (op : Nat → Except OllamaError A) (b : Nat) :
    (∀ (s : Nat) (bodyText : String), 400 ≤ s → s ≤ 499 →
      is4xx (.http s bodyText) = true) ∧
    (∀ (k : Nat) (e : OllamaError), k < 3 →
      (∀ j, j < k → ∃ ej, op j = .error ej ∧ is4xx ej = false) →
      op k = .error e → is4xx e = true →
      callOllamaAPIWithRetry op 3 b =
        (.clientError e, k + 1, (List.range k).map (fun j => b * 2 ^ j))) ∧
    (∀ (e0 e1 : OllamaError) (a : A),
      op 0 = .error e0 → is4xx e0 = false →
      op 1 = .error e1 → is4xx e1 = false →
      op 2 = .ok a →
      callOllamaAPIWithRetry op 3 b = (.success a, 3, [b * 2 ^ 0, b * 2 ^ 1])) ∧
    (∀ (e0 e1 e2 : OllamaError),
      op 0 = .error e0 → is4xx e0 = false →
      op 1 = .error e1 → is4xx e1 = false →
      op 2 = .error e2 → is4xx e2 = false →
      callOllamaAPIWithRetry op 3 b =
        (.exhausted 3 (some e2), 3, [b * 2 ^ 0, b * 2 ^ 1])) := by
  refine ⟨?_, ?_, ?_, ?_⟩
  · intro s bodyText hlo hhi
    interval_cases s <;> rfl
  · intro k e hk hprev hke h4
    interval_cases k
    · simp [callOllamaAPIWithRetry, retryAux, hke, h4]
    · obtain ⟨e0, h0, h40⟩ := hprev 0 (by omega)
      simp [callOllamaAPIWithRetry, retryAux, h0, h40, hke, h4, List.range_succ]
    · obtain ⟨e0, h0, h40⟩ := hprev 0 (by omega)
      obtain ⟨e1, h1, h41⟩ := hprev 1 (by omega)
      simp [callOllamaAPIWithRetry, retryAux, h0, h40, h1, h41, hke, h4, List.range_succ]
  · intro e0 e1 a h0 h40 h1 h41 h2
    simp [callOllamaAPIWithRetry, retryAux, h0, h40, h1, h41, h2]
  · intro e0 e1 e2 h0 h40 h1 h41 h2 h42
    simp [callOllamaAPIWithRetry, retryAux, h0, h40, h1, h41, h2, h42]

/-- Operation trace for the C2 witness: two 503 failures, then success. -/
def c2op : Nat → Except OllamaError Nat := fun k =>
  if k < 2 then .error (.http 503 "Service Unavailable") else .ok 42

/-- C2 witness: the fail-fail-succeed trace (pattern-free 503 messages)
returns the success after three invocations with the exponential delays. -/
theorem c2_retry_policy_witness :
    callOllamaAPIWithRetry c2op 3 1000 =
      (.success 42, 3, [1000 * 2 ^ 0, 1000 * 2 ^ 1]) :=
  (c2_retry_policy Nat c2op 1000).2.2.1
    (.http 503 "Service Unavailable") (.http 503 "Service Unavailable") 42
    rfl rfl rfl rfl rfl

/-- C7: the wire role is determined from the canonical role by
model ↦ assistant, system ↦ system, tool-result ↦ tool (the tool-result
role is carried as the `"function"` role string), and every other role
string maps to user. -/
theorem c7_role_mapping :
    (∀ r : Role, convertRole r.toGemini =
      (match r with
       | .model => WireRole.assistant
       | .system => WireRole.system
       | .toolResult => WireRole.tool
       | .user => WireRole.user)) ∧
    (∀ s : String, s ≠ "model" → s ≠ "function" → s ≠ "system" →
      convertRole s = .user) := by
  constructor
  · intro r
    cases r <;> rfl
  · intro s h1 h2 h3
    simp [convertRole, h1, h2, h3]

/-- C7 witness: an unrecognised role string maps to the user wire role. -/
theorem c7_role_mapping_witness : convertRole "banana" = WireRole.user :=
  c7_role_mapping.2 "banana" (by decide) (by decide) (by decide)

/-- C10: the availability probe returns false on transport failure and on a
non-ok response, and the model listing returns the empty list on transport
failure, on a non-ok response, on an unparseable body, on a body without a
`models` field, and on a `models` value that is not an array. -/
theorem c10_probe_and_listing_total :
    (∀ msg, isAvailable (.networkError msg) = false) ∧
    (∀ status body, isAvailable (.response false status body) = false) ∧
    (∀ status body, isAvailable (.response true status body) = true) ∧
    (∀ msg, listModels (.networkError msg) = []) ∧
    (∀ status body, listModels (.response false status body) = []) ∧
    (∀ status, listModels (.response true status none) = []) ∧
    (∀ status data, data.getField "models" = none →
      listModels (.response true status (some data)) = []) ∧
    (∀ status data j, data.getField "models" = some j → (∀ xs, j ≠ .arr xs) →
      listModels (.response true status (some data)) = []) := by
  refine ⟨fun _ => rfl, fun _ _ => rfl, fun _ _ => rfl, fun _ => rfl,
    fun _ _ => rfl, fun _ => rfl, ?_, ?_⟩
  · intro status data h
    simp [listModels, h]
  · intro status data j h hna
    cases j with
    | arr xs => exact absurd rfl (hna xs)
    | null => simp [listModels, h]
    | bool b => simp [listModels, h]
    | num n => simp [listModels, h]
    | str s => simp [listModels, h]
    | obj fields => simp [listModels, h]

/-- C10 witness: an ok response whose body has no `models` field yields the
empty model list. -/
theorem c10_probe_and_listing_total_witness :
    listModels (.response true 200 (some (Json.obj []))) = [] :=
  c10_probe_and_listing_total.2.2.2.2.2.2.1 200 (Json.obj []) rfl

/-- The failing stream establishment for C1: the first attempt's HTTP POST
answers 503 Service Unavailable (a retryable, non-4xx failure). -/
def c1FailFetch : StreamFetch := .response false 503 "Service Unavailable" none

/-- Fetch trace for C1: attempt 0 fails with 503; any further attempt would
succeed with an empty body stream. -/
def c1Fetches : Nat → StreamFetch := fun k =>
  if k = 0 then c1FailFetch
  else .response true 200 "" (some [])

/-- C1: evaluation of the streaming path at a failing input.  Because
invoking the async generator function returns the generator without running
its body, the retry wrapper resolves successfully on the very first attempt
with zero HTTP work and no delays — even though the establishment fails
with a retryable 503 and a second attempt would succeed.  The 503 is then
surfaced unretried to the consumer of the stream when the generator is
first driven.  Establishment is therefore never governed by the backoff
policy, contrary to the claim's first half (the second half — mid-stream
failures are surfaced immediately without retry — is what actually happens
to every failure). -/
theorem c1_stream_establishment_not_retried :
    callOllamaAPIStreamWithRetry c1Fetches = (.success c1FailFetch, 1, []) ∧
    is4xx (.http 503 "Service Unavailable") = false ∧
    runOllamaStream pZero c1FailFetch =
      ([], .failed (.http 503 "Service Unavailable")) :=
  ⟨rfl, rfl, rfl⟩

/-- A `find?` over a decomposed list returns the first element satisfying
the predicate when everything before it fails the predicate. -/
theorem find?_first {α : Type} (p : α → Bool) (pre post : List α) (x : α)
    (hx : p x = true) (hpre : ∀ e ∈ pre, p e = false) :
    (pre ++ x :: post).find? p = some x := by
  induction pre with
  | nil => simp [List.find?, hx]
  | cons a as ih =>
    have ha : p a = false := hpre a (by simp)
    simp only [List.cons_append, List.find?, ha]
    exact ih (fun e he => hpre e (by simp [he]))

/-- C5 counterexample: the registry lookup takes the first matching entry
in insertion order, not the longest-matching one.  For the model name
`qwen3qwen2.5` both `qwen3` and the longer `qwen2.5` are contained in the
base name; the code returns the `qwen3` entry while the claimed
longest-match resolution returns the `qwen2.5` entry, and the two entries
differ. -/
theorem c5_counterexample :
    getModelConfig "qwen3qwen2.5" = .config qwen3Config ∧
    specLongestMatchLookup "qwen3qwen2.5" = qwen25Config ∧
    getModelConfig "qwen3qwen2.5" ≠ .config (specLongestMatchLookup "qwen3qwen2.5") := by
  refine ⟨rfl, rfl, ?_⟩
  intro h
  rw [show getModelConfig "qwen3qwen2.5" = .config qwen3Config from rfl,
      show specLongestMatchLookup "qwen3qwen2.5" = qwen25Config from rfl] at h
  have h2 : qwen3Config = qwen25Config := by
    injection h
  have hn := congrArg ModelConfig.notes h2
  simp [qwen3Config, qwen25Config] at hn

/-- C5 (amended): the lookup resolves through the index read
`MODEL_CONFIGS[modelName]` first — an exact own key if one exists,
otherwise (the name being one of the truthy members every object literal
inherits from `Object.prototype`, such as `constructor` or `toString`) the
inherited member itself, a non-config that reads as non-tool-capable;
only then by the first entry in registry insertion order whose key is in
bidirectional substring containment with the base model name; otherwise by
the default entry.  `qwen2.5:1.5b` resolves to the tool-capable `qwen2.5`
entry via base-name suffix stripping, and an unrecognised ordinary name
resolves to the default non-tool-capable entry. -/
theorem c5_first_match_lookup :
    (∀ (name : String) (pre : List (String × ModelConfig))
        (kv : String × ModelConfig) (post : List (String × ModelConfig)),
      (∀ e ∈ MODEL_CONFIGS, e.1 ≠ name) →
      objectPrototypeProps.contains name = false →
      MODEL_CONFIGS = pre ++ kv :: post →
      matchesBase name kv = true →
      (∀ e ∈ pre, matchesBase name e = false) →
      getModelConfig name = .config kv.2) ∧
    (∀ name : String,
      (∀ e ∈ MODEL_CONFIGS, e.1 ≠ name) →
      objectPrototypeProps.contains name = false →
      (∀ e ∈ MODEL_CONFIGS, matchesBase name e = false) →
      getModelConfig name = .config defaultConfig) ∧
    (∀ name : String,
      (∀ e ∈ MODEL_CONFIGS, e.1 ≠ name) →
      objectPrototypeProps.contains name = true →
      getModelConfig name = .inherited name ∧
      (getModelConfig name).supportsToolCalling = false) ∧
    getModelConfig "constructor" = .inherited "constructor" ∧
    getModelConfig "qwen2.5:1.5b" = .config qwen25Config ∧
    (getModelConfig "qwen2.5:1.5b").supportsToolCalling = true ∧
    getModelConfig "mistral" = .config defaultConfig ∧
    (getModelConfig "mistral").supportsToolCalling = false := by
  refine ⟨?_, ?_, ?_, rfl, rfl, rfl, rfl, rfl⟩
  · intro name pre kv post hex hpp hdec hkv hpre
    have hnone : MODEL_CONFIGS.find? (fun e => e.1 == name) = none := by
      rw [List.find?_eq_none]
      intro e he
      simpa using hex e he
    have hfirst : MODEL_CONFIGS.find? (matchesBase name) = some kv := by
      rw [hdec]
      exact find?_first _ pre post kv hkv hpre
    have hpp2 : name ∉ objectPrototypeProps := by simpa using hpp
    simp [getModelConfig, hnone, hpp2, hfirst]
  · intro name hex hpp hall
    have hnone : MODEL_CONFIGS.find? (fun e => e.1 == name) = none := by
      rw [List.find?_eq_none]
      intro e he
      simpa using hex e he
    have hnone2 : MODEL_CONFIGS.find? (matchesBase name) = none := by
      rw [List.find?_eq_none]
      intro e he
      simp [hall e he]
    have hpp2 : name ∉ objectPrototypeProps := by simpa using hpp
    simp [getModelConfig, hnone, hpp2, hnone2]
  · intro name hex hpp
    have hnone : MODEL_CONFIGS.find? (fun e => e.1 == name) = none := by
      rw [List.find?_eq_none]
      intro e he
      simpa using hex e he
    have hres : getModelConfig name = .inherited name := by
      have hpp2 : name ∈ objectPrototypeProps := by simpa using hpp
      simp [getModelConfig, hnone, hpp2]
    exact ⟨hres, by rw [hres]; rfl⟩

/-- C5 witness: `llama3:8b` has no exact entry and is no prototype
property; its base name `llama3` is contained in the key `llama3.1`, the
fifth entry, and matches none of the four entries before it, so the lookup
returns the `llama3.1` entry. -/
theorem c5_first_match_lookup_witness :
    getModelConfig "llama3:8b" = .config llama31Config :=
  c5_first_match_lookup.1 "llama3:8b"
    [("qwen3", qwen3Config), ("qwen2.5", qwen25Config),
     ("gemma3", gemma3Config), ("gemma2", gemma2Config)]
    ("llama3.1", llama31Config)
    [("llama3", llama3Config), ("phi3", phi3Config), ("default", defaultConfig)]
    (by decide) (by decide) rfl (by decide) (by decide)

/-- C8: a Turn containing a tool-result Part translates to a wire message
with role `tool`, `tool_call_id` equal to the tool-result's function name,
and content equal to the compact JSON serialisation of the result object,
discarding any text content of that Turn; in particular the `get_weather`
example serialises to the expected compact JSON. -/
theorem c8_tool_result_translation :
    (∀ (gen : String) (t : Turn) (name : String) (response : Json),
      t.parts.find? isFunctionResponseB = some (.functionResponse name response) →
      (convertTurn gen t).role = .tool ∧
      (convertTurn gen t).tool_call_id = some name ∧
      (convertTurn gen t).content = Json.stringify response) ∧
    (∀ gen : String,
      convertTurn gen
        ⟨.toolResult, [.text "ignored free text",
          .functionResponse "get_weather"
            (Json.obj [("temperature", .num 72), ("condition", .str "sunny")])]⟩ =
        { role := .tool
          content := "\x7b\"temperature\":72,\"condition\":\"sunny\"\x7d"
          tool_calls := none
          tool_call_id := some "get_weather" }) := by
  constructor
  · intro gen t name response hfind
    unfold convertTurn
    rw [hfind]
    exact ⟨rfl, rfl, rfl⟩
  · intro gen
    unfold convertTurn
    simp only [List.find?, isFunctionResponseB, List.filter, isFunctionCallB]
    simp only [Json.stringify, stringifyObj, escapeString, escapeChar]
    rfl

/-- C8 witness: a concrete tool-result Turn gets role `tool`, the function
name as `tool_call_id`, and the serialised result object as content. -/
theorem c8_tool_result_translation_witness :
    (convertTurn "gid" ⟨.toolResult, [.functionResponse "get_weather" (Json.str "ok")]⟩).role
        = WireRole.tool ∧
    (convertTurn "gid" ⟨.toolResult, [.functionResponse "get_weather" (Json.str "ok")]⟩).tool_call_id
        = some "get_weather" ∧
    (convertTurn "gid" ⟨.toolResult, [.functionResponse "get_weather" (Json.str "ok")]⟩).content
        = Json.stringify (Json.str "ok") :=
  c8_tool_result_translation.1 "gid"
    ⟨.toolResult, [.functionResponse "get_weather" (Json.str "ok")]⟩
    "get_weather" (Json.str "ok") rfl

/-- The wire record that carries a translated message's content back
through the response conversion: the round-trip input built from the
`toWire` output, with the response role fixed to assistant by the wire
format. -/
def mkRespOf (m : OllamaMessage) (done : Bool) : OllamaResponse :=
  { message := { content := m.content, tool_calls := m.tool_calls }
    done := done }

/-- The text part the response conversion builds from a content string
extracts back to that very string: a non-empty content becomes one text
Part, an empty content becomes no Part, and both extract to the content. -/
theorem extract_text_single (s : String) :
    extractTextFromParts (if s = "" then [] else [GPart.text s]) = s := by
  by_cases hs : s = ""
  · simp only [hs, if_pos rfl]
    rfl
  · simp [hs, extractTextFromParts, partText]
    rfl

/-- C6: for a Turn whose Parts are all text, converting to the wire format
and back preserves the text content exactly (the concatenated text of the
resulting Turn equals that of the original), the resulting role is the
canonical `model`, and the wire role is the canonical role mapping — in
particular a `model` Turn crosses the wire as `assistant` and returns as
`model`. -/
theorem c6_text_round_trip (parse : Str → Option Json) (gen : String)
    (t : Turn) (done : Bool)
    (htext : ∀ p ∈ t.parts, ∃ s, p = GPart.text s) :
    ∃ resp, convertToGeminiResponse parse (mkRespOf (convertTurn gen t) done) = some resp ∧
      resp.candidates.map (fun c => extractTextFromParts c.parts) =
        [extractTextFromParts t.parts] ∧
      resp.candidates.map GenCandidate.role = ["model"] ∧
      (convertTurn gen t).role = convertRole t.role.toGemini ∧
      (t.role = .model → (convertTurn gen t).role = .assistant) := by
  have hfc : t.parts.filter isFunctionCallB = [] := by
    rw [List.filter_eq_nil_iff]
    intro p hp
    obtain ⟨s, rfl⟩ := htext p hp
    simp [isFunctionCallB]
  have hfr : t.parts.find? isFunctionResponseB = none := by
    rw [List.find?_eq_none]
    intro p hp
    obtain ⟨s, rfl⟩ := htext p hp
    simp [isFunctionResponseB]
  have hconv : convertTurn gen t =
      { role := convertRole t.role.toGemini
        content := extractTextFromParts t.parts } := by
    unfold convertTurn
    rw [hfc, hfr]
    rfl
  rw [hconv]
  refine ⟨_, rfl, ?_, rfl, rfl, fun h => by simp [h, convertRole, Role.toGemini]⟩
  simp only [List.map, List.cons.injEq, and_true, mkRespOf, List.append_nil]
  exact extract_text_single (extractTextFromParts t.parts)

/-- C6 witness: a two-part text Turn round-trips its newline-joined text
content and comes back with the `model` role. -/
theorem c6_text_round_trip_witness :
    ∃ resp, convertToGeminiResponse pZero
        (mkRespOf (convertTurn "gid" ⟨.model, [.text "hello", .text "world"]⟩) true) =
          some resp ∧
      resp.candidates.map (fun c => extractTextFromParts c.parts) =
        [extractTextFromParts [GPart.text "hello", GPart.text "world"]] ∧
      resp.candidates.map GenCandidate.role = ["model"] ∧
      (convertTurn "gid" ⟨.model, [.text "hello", .text "world"]⟩).role =
        convertRole (Role.toGemini .model) ∧
      (Role.model = .model →
        (convertTurn "gid" ⟨.model, [.text "hello", .text "world"]⟩).role =
          .assistant) :=
  c6_text_round_trip pZero "gid" ⟨.model, [.text "hello", .text "world"]⟩ true
    (by
      intro p hp
      rcases hp with _ | ⟨_, hp⟩
      · exact ⟨"hello", rfl⟩
      · rcases hp with _ | ⟨_, hp⟩
        · exact ⟨"world", rfl⟩
        · cases hp)

/-- C9: the capability check is a non-fatal advisory for every request.
For any request model whose name resolves to a non-tool-capable capability
entry, a generation request containing tool Parts whose HTTP interaction
succeeds still completes with the converted response while emitting a
non-empty advisory list; and for any two request models whose backends
behave identically, the outcomes are identical — so a non-tool-capable
resolution yields the same outcome as a tool-capable one.  The `gemma3`
entry is registered non-tool-capable and `llama3.1` tool-capable, grounding
the claim's example. -/
theorem c9_capability_advisory_nonfatal :
    (∀ (parse : Str → Option Json) (gen requestModel : String)
        (contents : List Turn)
        (api : String → List OllamaMessage → Nat → Except OllamaError OllamaResponse)
        (r : OllamaResponse) (resp : GenResponse),
      (getModelConfig (extractModelName requestModel)).supportsToolCalling = false →
      checkForToolCalls contents = true →
      api (extractModelName requestModel) (convertToOllamaMessages gen contents) 0 =
        Except.ok r →
      convertToGeminiResponse parse r = some resp →
      generateContent parse gen requestModel contents api =
        (validateModelToolSupport (extractModelName requestModel), Except.ok resp) ∧
      validateModelToolSupport (extractModelName requestModel) ≠ []) ∧
    (∀ (parse : Str → Option Json) (gen requestModel requestModel2 : String)
        (contents : List Turn)
        (api api' : String → List OllamaMessage → Nat → Except OllamaError OllamaResponse),
      (∀ messages k, api (extractModelName requestModel) messages k =
        api' (extractModelName requestModel2) messages k) →
      (generateContent parse gen requestModel contents api).2 =
        (generateContent parse gen requestModel2 contents api').2) ∧
    (getModelConfig "gemma3").supportsToolCalling = false ∧
    (getModelConfig "llama3.1").supportsToolCalling = true := by
  refine ⟨?_, ?_, rfl, rfl⟩
  · intro parse gen requestModel contents api r resp hcap hcheck hapi hconv
    constructor
    · unfold generateContent
      rw [hcheck]
      simp only [if_pos rfl]
      unfold callOllamaAPIWithRetry retryAux
      rw [hapi]
      simp [hconv]
    · simp only [validateModelToolSupport]
      rw [hcap]
      simp
  · intro parse gen requestModel requestModel2 contents api api' hsame
    have hfun : api (extractModelName requestModel) (convertToOllamaMessages gen contents) =
        api' (extractModelName requestModel2) (convertToOllamaMessages gen contents) :=
      funext (hsame (convertToOllamaMessages gen contents))
    simp only [generateContent]
    rw [hfun]

/-- Splitting never produces an empty list of segments. -/
theorem splitNl_ne_nil (s : Str) : splitNl s ≠ [] := by
  induction s with
  | nil => simp [splitNl]
  | cons c cs ih =>
    simp only [splitNl]
    by_cases hc : c = '\n'
    · simp [hc]
    · simp only [if_neg hc]
      cases h : splitNl cs with
      | nil => simp
      | cons l ls => simp

/-- A newline-free string splits into the single segment that is itself. -/
theorem splitNl_no_newline (s : Str) (h : '\n' ∉ s) : splitNl s = [s] := by
  induction s with
  | nil => rfl
  | cons c cs ih =>
    have hc : ¬ c = '\n' := fun he => h (he ▸ List.mem_cons_self c cs)
    have hcs : splitNl cs = [cs] := ih (fun hm => h (List.mem_cons_of_mem c hm))
    simp [splitNl, hc, hcs]

/-- Appending a newline to a newline-free line splits into that line
followed by an empty trailing segment. -/
theorem splitNl_append_newline (l : Str) (h : '\n' ∉ l) :
    splitNl (l ++ ['\n']) = [l, []] := by
  induction l with
  | nil => rfl
  | cons c cs ih =>
    have hc : ¬ c = '\n' := fun he => h (he ▸ List.mem_cons_self c cs)
    have hcs : splitNl (cs ++ ['\n']) = [cs, []] :=
      ih (fun hm => h (List.mem_cons_of_mem c hm))
    simp [splitNl, hc, hcs]

/-- Every segment of a split is no longer than the string that was split. -/
theorem mem_splitNl_length_le (s : Str) :
    ∀ l ∈ splitNl s, l.length ≤ s.length := by
  induction s with
  | nil =>
    intro l hl
    have : l = [] := by simpa [splitNl] using hl
    simp [this]
  | cons c cs ih =>
    intro l hl
    simp only [splitNl] at hl
    by_cases hc : c = '\n'
    · rw [if_pos hc] at hl
      rcases List.mem_cons.mp hl with hl | hl
      · simp [hl]
      · exact Nat.le_succ_of_le (ih l hl)
    · rw [if_neg hc] at hl
      cases h : splitNl cs with
      | nil => exact absurd h (splitNl_ne_nil cs)
      | cons l0 ls0 =>
        rw [h] at hl
        rcases List.mem_cons.mp hl with hl | hl
        · have h0 : l0 ∈ splitNl cs := by rw [h]; exact List.mem_cons_self l0 ls0
          have := ih l0 h0
          simp [hl, List.length_cons]
          omega
        · have h0 : l ∈ splitNl cs := by rw [h]; exact List.mem_cons_of_mem l0 hl
          exact Nat.le_succ_of_le (ih l h0)

/-- The last element (with fallback) of a non-empty list is a member. -/
theorem getLastD_mem_of_ne_nil {α : Type} :
    ∀ (l : List α) (d : α), l ≠ [] → l.getLastD d ∈ l := by
  intro l
  induction l with
  | nil => intro d h; exact absurd rfl h
  | cons a t ih =>
    intro d _
    cases t with
    | nil => simp
    | cons b t2 =>
      have hm := ih d (by simp)
      rw [show (a :: b :: t2).getLastD d = (b :: t2).getLastD d from rfl]
      exact List.mem_cons_of_mem a hm

/-- The retained trailing fragment of a split is no longer than the split
string. -/
theorem getLastD_splitNl_length_le (s : Str) :
    ((splitNl s).getLastD []).length ≤ s.length :=
  mem_splitNl_length_le s _ (getLastD_mem_of_ne_nil _ _ (splitNl_ne_nil s))

/-- The line loop only ever throws the consecutive-parse-error failure,
never the buffer one. -/
theorem processLines_outcome (parse : Str → Option Json) (maxErrs : Nat) :
    ∀ (ls : List Str) (errs : Nat),
      (processLines parse maxErrs ls errs).2.2 = none ∨
      (processLines parse maxErrs ls errs).2.2 = some .tooManyParseErrors := by
  intro ls
  induction ls with
  | nil => intro errs; left; rfl
  | cons l rest ih =>
    intro errs
    by_cases hbl : isBlank l
    · simpa [processLines, hbl] using ih errs
    · cases hp : parse l with
      | some r =>
        rcases hres : processLines parse maxErrs rest 0 with ⟨rs, e, o⟩
        have := ih 0
        rw [hres] at this
        simpa [processLines, hbl, hp, hres] using this
      | none =>
        by_cases he : errs + 1 > maxErrs
        · simp [processLines, hbl, hp, he]
        · simpa [processLines, hbl, hp, he] using ih (errs + 1)

/-- The buffer guard fires on terminator-free input as soon as the
accumulated length passes the limit: with a newline-free buffer and
newline-free chunks whose combined length exceeds the maximum, the decoder
fails with the buffer-exceeded outcome having emitted nothing. -/
theorem decode_overflow (parse : Str → Option Json) (maxBuf maxErrs : Nat) :
    ∀ (chunks : List Str) (buf : Str) (errs : Nat),
      buf.length ≤ maxBuf → '\n' ∉ buf → (∀ c ∈ chunks, '\n' ∉ c) →
      maxBuf < buf.length + totalLen chunks →
      decodeChunksAux parse maxBuf maxErrs chunks buf errs = ([], .bufferExceeded) := by
  intro chunks
  induction chunks with
  | nil =>
    intro buf errs h1 _ _ h4
    simp [totalLen] at h4
    omega
  | cons c rest ih =>
    intro buf errs h1 h2 h3 h4
    simp only [decodeChunksAux]
    by_cases hb : (buf ++ c).length > maxBuf
    · rw [if_pos hb]
    · have hnl : '\n' ∉ buf ++ c := by
        rw [List.mem_append]
        rintro (h | h)
        · exact h2 h
        · exact h3 c (List.mem_cons_self c rest) h
      have hsp : splitNl (buf ++ c) = [buf ++ c] := splitNl_no_newline _ hnl
      rw [if_neg hb, hsp]
      have hrec := ih (buf ++ c) errs (by omega) hnl
        (fun x hx => h3 x (List.mem_cons_of_mem c hx))
        (by
          simp only [totalLen, List.map, List.sum_cons, List.length_append] at h4 ⊢
          omega)
      have hred : processLines parse maxErrs (List.dropLast [buf ++ c]) errs =
          ([], errs, none) := rfl
      rw [hred]
      simp [hrec, List.getLastD]

/-- The buffer guard never fires when the whole input fits inside the
configured maximum: the retained fragment never outgrows what was read. -/
theorem decode_within_bound (parse : Str → Option Json) (maxBuf maxErrs : Nat) :
    ∀ (chunks : List Str) (buf : Str) (errs : Nat),
      buf.length + totalLen chunks ≤ maxBuf →
      (decodeChunksAux parse maxBuf maxErrs chunks buf errs).2 ≠ .bufferExceeded := by
  intro chunks
  induction chunks with
  | nil =>
    intro buf errs _
    simp [decodeChunksAux]
  | cons c rest ih =>
    intro buf errs h
    have hlen : totalLen (c :: rest) = c.length + totalLen rest := by
      simp [totalLen]
    simp only [decodeChunksAux]
    have hb : ¬ (buf ++ c).length > maxBuf := by
      rw [List.length_append]
      omega
    rw [if_neg hb]
    rcases hres : processLines parse maxErrs (List.dropLast (splitNl (buf ++ c))) errs
      with ⟨rs, e, o⟩
    cases o with
    | some oc =>
      have hout := processLines_outcome parse maxErrs
        (List.dropLast (splitNl (buf ++ c))) errs
      rw [hres] at hout
      rcases hout with h' | h'
      · simp at h'
      · simp only [Option.some.injEq] at h'
        subst h'
        simp
    | none =>
      have hfrag : ((splitNl (buf ++ c)).getLastD []).length + totalLen rest ≤ maxBuf := by
        have := getLastD_splitNl_length_le (buf ++ c)
        rw [List.length_append] at this
        omega
      have hrec := ih ((splitNl (buf ++ c)).getLastD []) e hfrag
      simpa using hrec

/-- Feeding the decoder one newline-terminated chunk per line (each line
newline-free and fitting the buffer) runs the line loop over exactly those
lines, with the error counter threaded through and the dangling empty
fragment discarded at the end. -/
theorem decode_encodeLines (parse : Str → Option Json) (maxBuf maxErrs : Nat) :
    ∀ (ls : List Str) (errs : Nat),
      (∀ l ∈ ls, '\n' ∉ l ∧ l.length + 1 ≤ maxBuf) →
      decodeChunksAux parse maxBuf maxErrs (encodeLines ls) [] errs =
        ((processLines parse maxErrs ls errs).1,
          ((processLines parse maxErrs ls errs).2.2).getD .terminated) := by
  intro ls
  induction ls with
  | nil =>
    intro errs _
    rfl
  | cons l rest ih =>
    intro errs h
    obtain ⟨hnl, hlen⟩ := h l (List.mem_cons_self l rest)
    have hrest : ∀ x ∈ rest, '\n' ∉ x ∧ x.length + 1 ≤ maxBuf :=
      fun x hx => h x (List.mem_cons_of_mem l hx)
    rw [show encodeLines (l :: rest) = (l ++ ['\n']) :: encodeLines rest from rfl]
    simp only [decodeChunksAux]
    have hb : ¬ (([] : Str) ++ (l ++ ['\n'])).length > maxBuf := by
      simp only [List.nil_append, List.length_append, List.length_cons,
        List.length_nil]
      omega
    rw [if_neg hb]
    have hsp : splitNl (([] : Str) ++ (l ++ ['\n'])) = [l, []] := by
      rw [List.nil_append]
      exact splitNl_append_newline l hnl
    rw [hsp]
    rw [show (List.dropLast [l, []] : List Str) = [l] from rfl]
    rw [show (([l, []] : List Str).getLastD []) = [] from rfl]
    by_cases hbl : isBlank l
    · have h1 : processLines parse maxErrs [l] errs = ([], errs, none) := by
        simp [processLines, hbl]
      have h2 : processLines parse maxErrs (l :: rest) errs =
          processLines parse maxErrs rest errs := by
        simp [processLines, hbl]
      rw [h1, h2]
      simpa using ih errs hrest
    · cases hp : parse l with
      | some r =>
        have h1 : processLines parse maxErrs [l] errs = ([r], 0, none) := by
          simp [processLines, hbl, hp]
        have h2 : processLines parse maxErrs (l :: rest) errs =
            (r :: (processLines parse maxErrs rest 0).1,
              (processLines parse maxErrs rest 0).2) := by
          simp [processLines, hbl, hp]
        rw [h1, h2]
        simp [ih 0 hrest]
      | none =>
        by_cases he : errs + 1 > maxErrs
        · have h1 : processLines parse maxErrs [l] errs =
              ([], errs + 1, some .tooManyParseErrors) := by
            simp [processLines, hbl, hp, he]
          have h2 : processLines parse maxErrs (l :: rest) errs =
              ([], errs + 1, some .tooManyParseErrors) := by
            simp [processLines, hbl, hp, he]
          rw [h1, h2]
          rfl
        · have h1 : processLines parse maxErrs [l] errs = ([], errs + 1, none) := by
            simp [processLines, hbl, hp, he]
          have h2 : processLines parse maxErrs (l :: rest) errs =
              processLines parse maxErrs rest (errs + 1) := by
            simp [processLines, hbl, hp, he]
          rw [h1, h2]
          simpa using ih (errs + 1) hrest

/-- The line loop on all-malformed non-blank lines: it counts straight up,
ending cleanly when the budget is not exhausted and failing with the
consecutive-error outcome (after emitting nothing) the moment the counter
passes the maximum. -/
theorem processLines_all_bad (parse : Str → Option Json) (maxErrs : Nat) :
    ∀ (ls : List Str) (errs : Nat), errs ≤ maxErrs →
      (∀ l ∈ ls, isBlank l = false ∧ parse l = none) →
      processLines parse maxErrs ls errs =
        (if errs + ls.length ≤ maxErrs then ([], errs + ls.length, none)
         else ([], maxErrs + 1, some .tooManyParseErrors)) := by
  intro ls
  induction ls with
  | nil =>
    intro errs he _
    simp [processLines, he]
  | cons l rest ih =>
    intro errs he h
    obtain ⟨hbl, hp⟩ := h l (List.mem_cons_self l rest)
    have hrest : ∀ x ∈ rest, isBlank x = false ∧ parse x = none :=
      fun x hx => h x (List.mem_cons_of_mem l hx)
    simp only [processLines, hbl, Bool.false_eq_true, if_false, hp,
      List.length_cons]
    by_cases hgt : errs + 1 > maxErrs
    · rw [if_pos hgt, if_neg (by omega)]
      have heq : errs = maxErrs := by omega
      simp [heq]
    · rw [if_neg hgt, ih (errs + 1) (by omega) hrest]
      by_cases hle : errs + 1 + rest.length ≤ maxErrs
      · rw [if_pos hle, if_pos (by omega)]
        simp only [Prod.mk.injEq, true_and, and_true]
        omega
      · rw [if_neg hle, if_neg (by omega)]

/-- The line loop under the claim's tolerance hypothesis: when no run of
consecutive non-blank malformed lines exceeds the budget, the loop never
fails, and it emits exactly the parses of the non-blank lines in order. -/
theorem processLines_bounded (parse : Str → Option Json) (maxErrs : Nat) :
    ∀ (ls : List Str) (errs : Nat),
      errs + leadBad parse ls ≤ maxErrs →
      (∀ i, leadBad parse (ls.drop i) ≤ maxErrs) →
      (processLines parse maxErrs ls errs).1 =
        (ls.filter (fun l => !isBlank l)).filterMap parse ∧
      (processLines parse maxErrs ls errs).2.2 = none := by
  intro ls
  induction ls with
  | nil =>
    intro errs _ _
    exact ⟨rfl, rfl⟩
  | cons l rest ih =>
    intro errs h1 h2
    by_cases hbl : isBlank l
    · have hlead : leadBad parse (l :: rest) = leadBad parse rest := by
        simp [leadBad, hbl]
      have hr1 : errs + leadBad parse rest ≤ maxErrs := by
        rw [hlead] at h1
        exact h1
      have hr2 : ∀ i, leadBad parse (rest.drop i) ≤ maxErrs := by
        intro i
        simpa using h2 (i + 1)
      have hres := ih errs hr1 hr2
      constructor
      · simp [processLines, hbl, List.filter, hres.1]
      · simp [processLines, hbl, hres.2]
    · cases hp : parse l with
      | some r =>
        have hr1 : 0 + leadBad parse rest ≤ maxErrs := by
          have := h2 1
          simpa using this
        have hr2 : ∀ i, leadBad parse (rest.drop i) ≤ maxErrs := by
          intro i
          simpa using h2 (i + 1)
        have hres := ih 0 hr1 hr2
        constructor
        · simp [processLines, hbl, hp, List.filter, List.filterMap, hres.1]
        · simp [processLines, hbl, hp, hres.2]
      | none =>
        have hlead : leadBad parse (l :: rest) = 1 + leadBad parse rest := by
          simp [leadBad, hbl, hp]
        rw [hlead] at h1
        have hne : ¬ errs + 1 > maxErrs := by omega
        have hr1 : errs + 1 + leadBad parse rest ≤ maxErrs := by omega
        have hr2 : ∀ i, leadBad parse (rest.drop i) ≤ maxErrs := by
          intro i
          simpa using h2 (i + 1)
        have hres := ih (errs + 1) hr1 hr2
        constructor
        · simp [processLines, hbl, hp, hne, List.filter, List.filterMap, hres.1]
        · simp [processLines, hbl, hp, hne, hres.2]

/-- C4: in the stream decoder, each complete non-blank line that fails to
parse is skipped and counted, each parsed line is emitted and resets the
counter, and with the source's tolerance of 5 the decoder fails exactly on
a sixth consecutive malformed line: any line sequence whose runs of
consecutive non-blank malformed lines stay within five decodes cleanly to
exactly the parsed records, six consecutive malformed lines fail with the
parse-error outcome before emitting anything, and five do not fail. -/
theorem c4_parse_error_tolerance :
    (∀ (parse : Str → Option Json) (maxBuf : Nat) (ls : List Str),
      (∀ l ∈ ls, '\n' ∉ l ∧ l.length + 1 ≤ maxBuf) →
      (∀ i, leadBad parse (ls.drop i) ≤ 5) →
      decodeStream parse maxBuf 5 (encodeLines ls) =
        ((ls.filter (fun l => !isBlank l)).filterMap parse, .terminated)) ∧
    (∀ (parse : Str → Option Json) (maxBuf : Nat) (ls : List Str),
      (∀ l ∈ ls, '\n' ∉ l ∧ l.length + 1 ≤ maxBuf) →
      ls.length = 6 →
      (∀ l ∈ ls, isBlank l = false ∧ parse l = none) →
      decodeStream parse maxBuf 5 (encodeLines ls) = ([], .tooManyParseErrors)) ∧
    (∀ (parse : Str → Option Json) (maxBuf : Nat) (ls : List Str),
      (∀ l ∈ ls, '\n' ∉ l ∧ l.length + 1 ≤ maxBuf) →
      ls.length = 5 →
      (∀ l ∈ ls, isBlank l = false ∧ parse l = none) →
      decodeStream parse maxBuf 5 (encodeLines ls) = ([], .terminated)) := by
  refine ⟨?_, ?_, ?_⟩
  · intro parse maxBuf ls hsz hruns
    rw [decodeStream, decode_encodeLines parse maxBuf 5 ls 0 hsz]
    have h1 : 0 + leadBad parse ls ≤ 5 := by
      have := hruns 0
      simpa using this
    have hres := processLines_bounded parse 5 ls 0 h1 hruns
    rw [hres.1, hres.2]
    rfl
  · intro parse maxBuf ls hsz hlen hbad
    rw [decodeStream, decode_encodeLines parse maxBuf 5 ls 0 hsz]
    rw [processLines_all_bad parse 5 ls 0 (by omega) hbad]
    rw [hlen]
    norm_num
  · intro parse maxBuf ls hsz hlen hbad
    rw [decodeStream, decode_encodeLines parse maxBuf 5 ls 0 hsz]
    rw [processLines_all_bad parse 5 ls 0 (by omega) hbad]
    rw [hlen]
    norm_num

/-- C4 witness: six malformed lines fail with the parse-error outcome; five
end cleanly. -/
theorem c4_parse_error_tolerance_witness :
    decodeStream pZero MAX_BUFFER_SIZE 5 (encodeLines (List.replicate 6 ['b'])) =
      ([], .tooManyParseErrors) ∧
    decodeStream pZero MAX_BUFFER_SIZE 5 (encodeLines (List.replicate 5 ['b'])) =
      ([], .terminated) := by
  constructor
  · exact c4_parse_error_tolerance.2.1 pZero MAX_BUFFER_SIZE (List.replicate 6 ['b'])
      (by
        intro l hl
        rw [List.eq_of_mem_replicate hl]
        exact ⟨by decide, by norm_num [MAX_BUFFER_SIZE]⟩)
      (by simp)
      (by
        intro l hl
        rw [List.eq_of_mem_replicate hl]
        exact ⟨by decide, rfl⟩)
  · exact c4_parse_error_tolerance.2.2 pZero MAX_BUFFER_SIZE (List.replicate 5 ['b'])
      (by
        intro l hl
        rw [List.eq_of_mem_replicate hl]
        exact ⟨by decide, by norm_num [MAX_BUFFER_SIZE]⟩)
      (by simp)
      (by
        intro l hl
        rw [List.eq_of_mem_replicate hl]
        exact ⟨by decide, rfl⟩)

/-- The oversized chunk for the C3 counterexample: 600000 copies of the
two-character line `a` + newline, 1200000 characters in all, every line of
it one character long. -/
def c3Chunk : Str := (List.replicate 600000 ['a', '\n']).flatten

/-- Length of a flattened replication. -/
theorem flatten_replicate_length (n : Nat) (l : Str) :
    ((List.replicate n l).flatten).length = n * l.length := by
  induction n with
  | zero => simp
  | succ m ih =>
    simp only [List.replicate_succ, List.flatten_cons, List.length_append, ih,
      Nat.succ_mul]
    exact Nat.add_comm _ _

/-- Splitting the joined replication of `a` + newline gives the one-character
lines followed by the empty trailing fragment. -/
theorem splitNl_flatten_replicate (n : Nat) :
    splitNl ((List.replicate n ['a', '\n']).flatten) =
      List.replicate n ['a'] ++ [[]] := by
  induction n with
  | zero => rfl
  | succ m ih =>
    rw [List.replicate_succ, List.flatten_cons]
    simp [splitNl, ih, List.replicate_succ]

/-- The fold computing the longest-line length over one-character lines is
bounded by one. -/
theorem foldr_max_replicate_one (n : Nat) :
    ((List.replicate n 1 ++ [0]).foldr max 0) ≤ 1 := by
  induction n with
  | zero => simp
  | succ m ih =>
    simp only [List.replicate_succ, List.cons_append, List.foldr_cons]
    omega

/-- C3 counterexample: an input whose lines are all shorter than the
maximum (every line of `c3Chunk` has length at most one) still fails with
the buffer-exceeded outcome, because the 1 MiB guard is checked against the
whole accumulated buffer after the chunk is appended, before any line
splitting. -/
theorem c3_counterexample :
    decodeStream pZero MAX_BUFFER_SIZE 5 [c3Chunk] = ([], .bufferExceeded) ∧
    maxLineLen c3Chunk < MAX_BUFFER_SIZE := by
  constructor
  · have hlen : c3Chunk.length = 1200000 := by
      rw [show c3Chunk = (List.replicate 600000 ['a', '\n']).flatten from rfl,
        flatten_replicate_length]
      rfl
    rw [decodeStream]
    have hgt : (([] : Str) ++ c3Chunk).length > MAX_BUFFER_SIZE := by
      rw [List.nil_append, hlen, MAX_BUFFER_SIZE]
      norm_num
    simp only [decodeChunksAux]
    rw [if_pos hgt]
  · rw [show maxLineLen c3Chunk =
        ((splitNl c3Chunk).map List.length).foldr max 0 from rfl]
    rw [show splitNl c3Chunk = List.replicate 600000 ['a'] ++ [[]] from
      splitNl_flatten_replicate 600000]
    simp only [List.map_append, List.map_replicate, List.length_cons,
      List.length_nil, List.map_cons, List.map_nil, Nat.zero_add]
    have := foldr_max_replicate_one 600000
    simp only [MAX_BUFFER_SIZE]
    omega

/-- C3 (amended): the buffer guard applies to the whole accumulated buffer
after each chunk append, before line splitting.  Terminator-free input
exceeding the maximum fails fatally with the buffer-exceeded outcome and no
records — in particular a single unterminated chunk longer than the maximum
fails before any record is emitted — and input whose total length stays
within the maximum never triggers this failure (though input made of short
lines arriving in one oversized chunk still can, which is what the
counterexample shows against the original claim). -/
theorem c3_buffer_guard :
    (∀ (parse : Str → Option Json) (maxBuf maxErrs : Nat) (chunks : List Str),
      (∀ c ∈ chunks, '\n' ∉ c) → maxBuf < totalLen chunks →
      decodeStream parse maxBuf maxErrs chunks = ([], .bufferExceeded)) ∧
    (∀ (parse : Str → Option Json) (maxBuf maxErrs : Nat) (chunk : Str),
      '\n' ∉ chunk → maxBuf < chunk.length →
      decodeStream parse maxBuf maxErrs [chunk] = ([], .bufferExceeded)) ∧
    (∀ (parse : Str → Option Json) (maxBuf maxErrs : Nat) (chunks : List Str),
      totalLen chunks ≤ maxBuf →
      (decodeStream parse maxBuf maxErrs chunks).2 ≠ .bufferExceeded) := by
  refine ⟨?_, ?_, ?_⟩
  · intro parse maxBuf maxErrs chunks hnl hover
    exact decode_overflow parse maxBuf maxErrs chunks [] 0 (by simp) (by simp)
      hnl (by simpa using hover)
  · intro parse maxBuf maxErrs chunk hnl hover
    refine decode_overflow parse maxBuf maxErrs [chunk] [] 0 (by simp) (by simp)
      ?_ ?_
    · intro c hc
      rw [List.eq_of_mem_singleton hc]
      exact hnl
    · simpa [totalLen] using hover
  · intro parse maxBuf maxErrs chunks hle
    exact decode_within_bound parse maxBuf maxErrs chunks [] 0 (by simpa using hle)

/-- C3 witness: a five-character unterminated chunk against a configured
maximum of four fails with the buffer-exceeded outcome before any record. -/
theorem c3_buffer_guard_witness :
    decodeStream pZero 4 5 [['x', 'x', 'x', 'x', 'x']] = ([], .bufferExceeded) :=
  c3_buffer_guard.2.1 pZero 4 5 ['x', 'x', 'x', 'x', 'x'] (by decide) (by decide)

/-- Concrete successful backend response for the C9 witness. -/
def c9Resp : OllamaResponse := { message := { content := "hi" }, done := true }

/-- The converted form of `c9Resp`. -/
def c9Out : GenResponse :=
  { candidates := [{ parts := [.text "hi"], role := "model", finishReason := .STOP }] }

/-- C9 witness: a tool-call request for `gemma3` with a succeeding backend
completes with the converted response and a non-empty advisory list. -/
theorem c9_capability_advisory_nonfatal_witness :
    generateContent pZero "gid" "gemma3" [⟨.user, [.functionCall none "f" none]⟩]
        (fun _ _ _ => Except.ok c9Resp) =
      (validateModelToolSupport (extractModelName "gemma3"), Except.ok c9Out) ∧
    validateModelToolSupport (extractModelName "gemma3") ≠ [] :=
  c9_capability_advisory_nonfatal.1 pZero "gid" "gemma3"
    [⟨.user, [.functionCall none "f" none]⟩]
    (fun _ _ _ => Except.ok c9Resp) c9Resp c9Out rfl rfl rfl rfl

end TrustCli
